import Mathlib

set_option maxRecDepth 100000

/-!
# Verification of the awkward_meter conversational-dynamics scoring engine

Shallow embedding of the scoring core of the `awkward_meter` repository:

* `src/src/utils.py` — the `Segment` and `AwkwardMoment` value objects;
* `src/src/analysis.py` — `AwkwardnessMeter.analyze_conversation`, the
  temporal friction detector and the Stage A base score;
* `src/app.py` (`analyze_with_names`) — the speaker-metrics aggregator,
  the escalation penalties, the final score and the verdict label.

Python floats are modelled as exact rationals (`ℚ`); Python `int(x)`
(truncation toward zero) is `pyTrunc`, and Python `round(x, 1)`
(round-half-to-even at one decimal) is `pyRound1`.  All definitions are
executable so that concrete inputs evaluate by `decide`.
-/

/-- Embeds `Segment` from `src/src/utils.py`.  The Python field `end` is
named `stop` here because `end` is a Lean keyword.  The Python type of
`text` is `Optional[str]`; the analysis path is embedded over `String`
(every constructor in the repository supplies a `str`), and the behaviour
of the text operations on `None` is modelled separately below by
`pyContainsQmE` / `pyWordCountE` over `Option String`. -/
structure Segment where
  start : ℚ
  stop : ℚ
  speaker : String
  text : String
  is_question : Bool
deriving DecidableEq, Repr

/-- Embeds `AwkwardMoment` from `src/src/utils.py`.  The Python field
`end` is named `stop`.  The presentational `description` string (float
formatting only, consumed by no computation) is not modelled. -/
structure AwkwardMoment where
  start : ℚ
  stop : ℚ
  severity : ℚ
  label : String
deriving DecidableEq, Repr

/-- Python `int(x)` on a float: truncation toward zero. -/
def pyTrunc (q : ℚ) : ℤ :=
  if 0 ≤ q then ⌊q⌋ else -⌊-q⌋

/-- Round-half-to-even to the nearest integer, as Python `round` does. -/
def rndHalfEven (q : ℚ) : ℤ :=
  if q - ⌊q⌋ < 1/2 then ⌊q⌋
  else if 1/2 < q - ⌊q⌋ then ⌊q⌋ + 1
  else if ⌊q⌋ % 2 = 0 then ⌊q⌋ else ⌊q⌋ + 1

/-- Python `round(x, 1)`: round-half-to-even at one decimal place. -/
def pyRound1 (q : ℚ) : ℚ :=
  (rndHalfEven (q * 10) : ℚ) / 10

/-- Helper for `wordCount`: counts maximal non-whitespace runs; the Bool
records whether the previous character was inside a word. -/
def wordCountAux : List Char → Bool → ℕ
  | [], _ => 0
  | c :: cs, inWord =>
    if c.isWhitespace then wordCountAux cs false
    else (if inWord then 0 else 1) + wordCountAux cs true

/-- Python `len(s.split())`: the number of maximal whitespace-separated
words of `s`. -/
def wordCount (s : String) : ℕ :=
  wordCountAux s.toList false

/-- Python `'?' in s`. -/
def containsQm (s : String) : Bool :=
  s.toList.contains (Char.ofNat 63)

/-- Does `pat` occur as a contiguous run at the head of `l`? -/
def startsWithL : List Char → List Char → Bool
  | [], _ => true
  | _ :: _, [] => false
  | p :: ps, c :: cs => p == c && startsWithL ps cs

/-- Python `pat in s` for strings: contiguous substring occurrence. -/
def containsSub (pat : List Char) : List Char → Bool
  | [] => pat.isEmpty
  | c :: cs => startsWithL pat (c :: cs) || containsSub pat cs

/-- One iteration of the friction-detector loop of
`AwkwardnessMeter.analyze_conversation` (`src/src/analysis.py`, lines
27–58): classify the consecutive pair `(current, next)` into at most one
flagged moment.  `gap = next.start - current.end`; thresholds
`TH_SILENCE_AWKWARD = 1.5`, `TH_SILENCE_PAINFUL = 3.0`,
`TH_OVERLAP_BAD = 0.2`. -/
def classifyPair (current next : Segment) : Option AwkwardMoment :=
  if 3/2 < next.start - current.stop then
    if current.is_question then
      some ⟨current.stop, next.start, 1, "Left Hanging (Vent)"⟩
    else if 3 < next.start - current.stop then
      some ⟨current.stop, next.start, 9/10, "Painful Silence"⟩
    else
      some ⟨current.stop, next.start, 6/10, "Awkward Silence"⟩
  else if next.start - current.stop < -(1/5) then
    if 1 < wordCount next.text then
      some ⟨next.start, current.stop, 7/10, "Interruption"⟩
    else none
  else none

/-- The friction-detector loop (`for i in range(len(segments) - 1)`),
appending the moment of each consecutive pair in order. -/
def detectMoments : List Segment → List AwkwardMoment
  | a :: b :: t => ((classifyPair a b).toList) ++ detectMoments (b :: t)
  | _ => []

/-- Embeds `total_awkward_time` (`src/src/analysis.py`, line 61):
`sum((m.end - m.start) * m.severity for m in moments)`. -/
def totalAwkwardTime (ms : List AwkwardMoment) : ℚ :=
  (ms.map (fun m => (m.stop - m.start) * m.severity)).sum

/-- Embeds `total_duration` (`src/src/analysis.py`, line 62, and identically
`src/app.py`, line 343): `segments[-1].end - segments[0].start if segments
else 1`.  Note the fallback `1` applies only to the empty list. -/
def totalDuration (l : List Segment) : ℚ :=
  match l.getLast?, l.head? with
  | some z, some a => z.stop - a.start
  | _, _ => 1

/-- Embeds `awkward_ratio` (`src/src/analysis.py`, line 68). -/
def awkwardRatio (l : List Segment) : ℚ :=
  totalAwkwardTime (detectMoments l) / totalDuration l

/-- Embeds `global_score` before `int()` (`src/src/analysis.py`, lines 71–74):
`base_score = (awkward_ratio / 0.05) * 50`; `min(100, base_score)`; raised
to `20` when moments exist and the value is below `20`. -/
def globalScoreQ (l : List Segment) : ℚ :=
  let gs := min 100 ((awkwardRatio l / (5/100)) * 50)
  if detectMoments l ≠ [] ∧ gs < 20 then 20 else gs

/-- Embeds `report["score"]` (`src/src/analysis.py`, line 77): `int(global_score)`. -/
def reportScoreZ (l : List Segment) : ℤ :=
  pyTrunc (globalScoreQ l)

/-- The distinct speakers of the sequence in order of first appearance:
the key set of the `speakers_time` dict of `src/app.py` (lines 344–347),
which later loops key on unchanged. -/
def speakersList (l : List Segment) : List String :=
  (l.map (fun s => s.speaker)).dedup

/-- Embeds `speakers_time[spk]` (`src/app.py`, lines 344–347): total speaking
duration of one speaker. -/
def speakingTimeOf (l : List Segment) (spk : String) : ℚ :=
  ((l.filter (fun s => s.speaker == spk)).map (fun s => s.stop - s.start)).sum

/-- Embeds `speakers_pct[spk]` (`src/app.py`, line 350):
`round((speakers_time[spk] / total_duration) * 100, 1)`. -/
def pctOf (l : List Segment) (spk : String) : ℚ :=
  pyRound1 (speakingTimeOf l spk / totalDuration l * 100)

/-- Python `max(values)` for a nonempty list, with the empty case mapped
to the caller's `if ... else 0` guard. -/
def listMax : List ℚ → ℚ
  | [] => 0
  | x :: xs => xs.foldl max x

/-- Embeds `max_dominance` (`src/app.py`, line 401):
`max(speakers_pct.values()) if speakers_pct else 0`. -/
def maxDominance (l : List Segment) : ℚ :=
  listMax ((speakersList l).map (pctOf l))

/-- The per-pair interruption test of the aggregator (`src/app.py`, lines
354–375): different speakers, `gap < 0.15`, and the later utterance lasts
strictly more than `1.0` second. -/
def interruptionIncr (prev curr : Segment) : Bool :=
  !(curr.speaker == prev.speaker)
    && decide (curr.start - prev.stop < 3/20)
    && decide (1 < curr.stop - curr.start)

/-- The consecutive pairs `(segments[i-1], segments[i])` that increment an
interruption counter in the aggregator loop of `src/app.py`. -/
def interruptionPairs : List Segment → List (Segment × Segment)
  | a :: b :: t =>
    (if interruptionIncr a b then [(a, b)] else []) ++ interruptionPairs (b :: t)
  | _ => []

/-- Embeds `interruption_counts[spk]` (`src/app.py`, lines 353–375): the dict
entry for `spk` equals the number of qualifying pairs whose later speaker
is `spk`. -/
def interruptionCountOf (l : List Segment) (spk : String) : ℕ :=
  ((interruptionPairs l).filter (fun pc => pc.2.speaker == spk)).length

/-- Embeds `total_interruptions = sum(interruption_counts.values())`
(`src/app.py`, line 414): every qualifying pair increments exactly one
dict entry, so the sum of the dict is the number of qualifying pairs. -/
def totalInterruptions (l : List Segment) : ℕ :=
  (interruptionPairs l).length

/-- Embeds `gaps` (`src/app.py`, line 378): the flagged moments whose label
contains the substring `"Silence"`. -/
def silenceMoments (l : List Segment) : List AwkwardMoment :=
  (detectMoments l).filter (fun m => containsSub "Silence".toList m.label.toList)

/-- Embeds `avg_gap` (`src/app.py`, line 379): average duration of the
silence-labelled moments, `0` when there are none. -/
def avgGap (l : List Segment) : ℚ :=
  if silenceMoments l = [] then 0
  else ((silenceMoments l).map (fun m => m.stop - m.start)).sum
        / ((silenceMoments l).length : ℚ)

/-- The dominance penalty of `src/app.py`, lines 401–405: added only when
`max_dominance > 60`. -/
def domPenalty (l : List Segment) : ℚ :=
  if 60 < maxDominance l then (maxDominance l - 60) * (5/2) else 0

/-- The dead-air penalty of `src/app.py`, lines 408–411: added only when
`avg_gap > 2.5`. -/
def silPenalty (l : List Segment) : ℚ :=
  if 5/2 < avgGap l then (avgGap l - 5/2) * 15 else 0

/-- The interruption penalty of `src/app.py`, line 415. -/
def intPenalty (l : List Segment) : ℚ :=
  (totalInterruptions l : ℚ) * 5

/-- Embeds `final_score` before the cap (`src/app.py`, lines 398–415): the
truncated report score plus the three penalties. -/
def finalScoreQ (l : List Segment) : ℚ :=
  (reportScoreZ l : ℚ) + domPenalty l + silPenalty l + intPenalty l

/-- Embeds `final_score = min(100, int(final_score))` (`src/app.py`, line 418). -/
def finalScore (l : List Segment) : ℤ :=
  min 100 (pyTrunc (finalScoreQ l))

/-- The verdict labels of `src/app.py`, lines 422–425.  The constructors
stand for the strings "Smooth Vibes", "Slightly Frictioned", "AWKWARD"
and "HOSTAGE SITUATION" (each decorated with an emoji in the source). -/
inductive Verdict where
  | smoothVibes
  | slightlyFrictioned
  | awkward
  | hostageSituation
deriving DecidableEq, Repr

/-- The verdict mapping of `src/app.py`, lines 422–425, applied to the
final post-penalty score. -/
def verdictOf (score : ℤ) : Verdict :=
  if score < 20 then .smoothVibes
  else if score < 40 then .slightlyFrictioned
  else if score < 70 then .awkward
  else .hostageSituation

/-- Embeds the `question_counts` increment test (`src/app.py`, line 388):
`'?' in s.text and len(s.text.split()) > 3`. -/
def questionFilter (t : String) : Bool :=
  containsQm t && decide (3 < wordCount t)

/-- Embeds `question_counts[spk]` (`src/app.py`, lines 383–389). -/
def questionCountOf (l : List Segment) (spk : String) : ℕ :=
  ((l.filter (fun s => s.speaker == spk && questionFilter s.text))).length

/-- Python `TypeError` / `AttributeError`: raised by `'?' in None` and by
`None.split()`. -/
inductive PyErr where
  | typeError
deriving DecidableEq, Repr

/-- Embeds `len(s.text.split())` evaluated over the declared `Optional[str]` type
of `Segment.text` (`src/src/utils.py`): `None.split()` raises. -/
def pyWordCountE : Option String → Except PyErr ℕ
  | none => .error .typeError
  | some t => .ok (wordCount t)

/-- Embeds `'?' in s.text` over `Optional[str]`: `'?' in None` raises. -/
def pyContainsQmE : Option String → Except PyErr Bool
  | none => .error .typeError
  | some t => .ok (containsQm t)

/-- The engagement filter of `src/app.py`, line 388, over `Optional[str]`
text, with Python short-circuit evaluation of `and`. -/
def questionFilterE (t : Option String) : Except PyErr Bool :=
  match pyContainsQmE t with
  | .error e => .error e
  | .ok false => .ok false
  | .ok true =>
    match pyWordCountE t with
    | .error e => .error e
    | .ok n => .ok (decide (3 < n))


/-- The sortedness half of the data-model invariant: the sequence is
sorted by `start` ascending. -/
def sortedByStart : List Segment → Bool
  | a :: b :: t => decide (a.start ≤ b.start) && sortedByStart (b :: t)
  | _ => true

/-- The data-model invariant of the spec (§3): sorted by `start`, and
`start < end` for every utterance. -/
def WFb (l : List Segment) : Bool :=
  sortedByStart l && l.all (fun s => decide (s.start < s.stop))

/-- Modelled from the spec: Stage A of §4.3 written the way the spec (and
claim C3) states it, for comparison against `globalScoreQ`. -/
def stageASpec (l : List Segment) : ℚ :=
  if detectMoments l = [] then 0
  else if min 100 ((awkwardRatio l / (5/100)) * 50) < 20 then 20
  else min 100 ((awkwardRatio l / (5/100)) * 50)

/-- Modelled from the spec: the final-score composition as claim C4
states it, with the penalties added to the *un-truncated* Stage A value
and a single floor applied to the full sum. -/
def specFinalScoreSingleFloor (l : List Segment) : ℤ :=
  min 100 (pyTrunc (globalScoreQ l + domPenalty l + silPenalty l + intPenalty l))

/-- The weighted awkward-time contribution of one consecutive pair:
`(m.end - m.start) * m.severity` of its moment, `0` when the pair emits
none. -/
def awkContrib (a b : Segment) : ℚ :=
  match classifyPair a b with
  | some m => (m.stop - m.start) * m.severity
  | none => 0

/-- Shift an utterance later in time by `δ` (used to state claim C9:
widening one gap while holding everything else fixed shifts the whole
tail of the conversation by `δ`). -/
def shiftSeg (δ : ℚ) (s : Segment) : Segment :=
  { s with start := s.start + δ, stop := s.stop + δ }

/-- The severity the detector assigns to a silence gap `g > 1.5` after an
utterance whose `is_question` flag is `q`. -/
def sevOf (q : Bool) (g : ℚ) : ℚ :=
  if q then 1 else if 3 < g then 9/10 else 6/10

lemma sortedByStart_pairwise :
    ∀ l : List Segment, sortedByStart l = true →
      List.Pairwise (fun a b : Segment => a.start ≤ b.start) l
  | [], _ => List.Pairwise.nil
  | [a], _ => by simp
  | a :: b :: t, h => by
    unfold sortedByStart at h
    rw [Bool.and_eq_true, decide_eq_true_eq] at h
    have ih := sortedByStart_pairwise (b :: t) h.2
    refine List.Pairwise.cons ?_ ih
    intro x hx
    rcases List.mem_cons.mp hx with rfl | hx
    · exact h.1
    · have := List.rel_of_pairwise_cons ih hx
      exact le_trans h.1 this

lemma WFb_sorted {l : List Segment} (h : WFb l = true) :
    List.Pairwise (fun a b : Segment => a.start ≤ b.start) l := by
  unfold WFb at h
  rw [Bool.and_eq_true] at h
  exact sortedByStart_pairwise l h.1

lemma WFb_startLtStop {l : List Segment} (h : WFb l = true) :
    ∀ s ∈ l, s.start < s.stop := by
  unfold WFb at h
  rw [Bool.and_eq_true, List.all_eq_true] at h
  intro s hs
  exact decide_eq_true_eq.mp (h.2 s hs)

lemma totalDuration_eq {l : List Segment} {z a : Segment}
    (hz : l.getLast? = some z) (ha : l.head? = some a) :
    totalDuration l = z.stop - a.start := by
  unfold totalDuration
  rw [hz, ha]

lemma totalDuration_pos {l : List Segment} (hwf : WFb l = true) (hne : l ≠ []) :
    0 < totalDuration l := by
  match l, hne with
  | a :: t, _ =>
    obtain ⟨z, hz⟩ : ∃ z, (a :: t).getLast? = some z :=
      ⟨_, List.getLast?_eq_getLast_of_ne_nil (by simp)⟩
    rw [totalDuration_eq hz (by rfl)]
    have hzmem : z ∈ a :: t := by
      obtain ⟨hne2, he⟩ := List.mem_getLast?_eq_getLast (Option.mem_def.mpr hz)
      rw [he]
      exact List.getLast_mem hne2
    have hlt := WFb_startLtStop hwf _ hzmem
    rcases List.mem_cons.mp hzmem with he | hm
    · rw [he] at hlt ⊢
      linarith
    · have hle := List.rel_of_pairwise_cons (WFb_sorted hwf) hm
      linarith

/-- C1 helper: the facts about a classified moment needed for sign
reasoning: its weighted contribution is positive. -/
lemma classifyPair_pos {a b : Segment} {m : AwkwardMoment}
    (h : classifyPair a b = some m) :
    0 < m.stop - m.start ∧ 0 < m.severity := by
  unfold classifyPair at h
  split_ifs at h with h1 h2 h3 h4 h5
  · injection h with h; subst h
    exact ⟨by show (0:ℚ) < b.start - a.stop; linarith, by norm_num⟩
  · injection h with h; subst h
    exact ⟨by show (0:ℚ) < b.start - a.stop; linarith, by norm_num⟩
  · injection h with h; subst h
    exact ⟨by show (0:ℚ) < b.start - a.stop; linarith, by norm_num⟩
  · injection h with h; subst h
    exact ⟨by show (0:ℚ) < a.stop - b.start; linarith, by norm_num⟩

lemma mem_detectMoments :
    ∀ (l : List Segment) (m : AwkwardMoment), m ∈ detectMoments l →
      ∃ a b, classifyPair a b = some m
  | [], m => by simp [detectMoments]
  | [a], m => by simp [detectMoments]
  | a :: b :: t, m => by
    unfold detectMoments
    intro h
    rcases List.mem_append.mp h with h | h
    · refine ⟨a, b, ?_⟩
      cases hc : classifyPair a b <;> rw [hc] at h <;> simp at h
      rw [h]
    · exact mem_detectMoments (b :: t) m h

lemma totalAwkwardTime_nonneg (l : List Segment) :
    0 ≤ totalAwkwardTime (detectMoments l) := by
  unfold totalAwkwardTime
  apply List.sum_nonneg
  intro x hx
  rcases List.mem_map.mp hx with ⟨m, hm, rfl⟩
  obtain ⟨a, b, hab⟩ := mem_detectMoments l m hm
  obtain ⟨h1, h2⟩ := classifyPair_pos hab
  positivity

/-- C1: for every consecutive pair with `gap > 1.5` the detector emits the
one silence moment spanning `[current.end, next.start]`, with precedence
`LeftHanging` (severity 1.0) on a question, else `PainfulSilence`
(severity 0.9) when `gap > 3.0`, else `AwkwardSilence` (severity 0.6);
a gap of exactly 1.5 emits nothing (strict comparison). -/
theorem silence_classification (current next : Segment) :
    (3/2 < next.start - current.stop → current.is_question = true →
      classifyPair current next =
        some ⟨current.stop, next.start, 1, "Left Hanging (Vent)"⟩) ∧
    (3/2 < next.start - current.stop → current.is_question = false →
      3 < next.start - current.stop →
      classifyPair current next =
        some ⟨current.stop, next.start, 9/10, "Painful Silence"⟩) ∧
    (3/2 < next.start - current.stop → current.is_question = false →
      next.start - current.stop ≤ 3 →
      classifyPair current next =
        some ⟨current.stop, next.start, 6/10, "Awkward Silence"⟩) ∧
    (next.start - current.stop = 3/2 → classifyPair current next = none) := by
  refine ⟨?_, ?_, ?_, ?_⟩
  · intro hg hq
    unfold classifyPair
    simp [hg, hq]
  · intro hg hq h3
    unfold classifyPair
    simp [hg, hq, h3]
  · intro hg hq h3
    unfold classifyPair
    simp [hg, hq, not_lt.mpr h3]
  · intro hg
    unfold classifyPair
    rw [hg]
    norm_num

theorem silence_classification_witness :
    classifyPair ⟨0, 5, "X", "Hello there friend?", true⟩ ⟨7, 9, "Y", "hello", false⟩ =
      some ⟨5, 7, 1, "Left Hanging (Vent)"⟩ ∧
    classifyPair ⟨0, 5, "X", "ok", false⟩ ⟨9, 10, "Y", "hello", false⟩ =
      some ⟨5, 9, 9/10, "Painful Silence"⟩ ∧
    classifyPair ⟨0, 5, "X", "ok", false⟩ ⟨7, 8, "Y", "hello", false⟩ =
      some ⟨5, 7, 6/10, "Awkward Silence"⟩ ∧
    classifyPair ⟨0, 5, "X", "ok", false⟩ ⟨13/2, 8, "Y", "hello", false⟩ = none :=
  ⟨(silence_classification _ _).1 (by with_unfolding_all decide) rfl,
   (silence_classification _ _).2.1 (by with_unfolding_all decide) rfl
     (by with_unfolding_all decide),
   (silence_classification _ _).2.2.1 (by with_unfolding_all decide) rfl
     (by with_unfolding_all decide),
   (silence_classification _ _).2.2.2 (by with_unfolding_all decide)⟩

/-- C2: for a consecutive pair whose gap is not above the silence
threshold, an `Interruption` moment (severity 0.7, spanning
`[next.start, current.end]`) is emitted exactly when the overlap is
strictly longer than 0.2s and the next utterance has more than one word;
an overlap of exactly 0.2s, or a one-word next utterance, emits nothing;
the final utterance (a one-element tail) emits nothing. -/
theorem interruption_classification (current next : Segment) :
    (next.start - current.stop ≤ 3/2 →
      (classifyPair current next =
          some ⟨next.start, current.stop, 7/10, "Interruption"⟩ ↔
        (next.start - current.stop < -(1/5) ∧ 1 < wordCount next.text))) ∧
    (next.start - current.stop = -(1/5) → classifyPair current next = none) ∧
    (wordCount next.text ≤ 1 → next.start - current.stop ≤ 3/2 →
      classifyPair current next = none) ∧
    (∀ s : Segment, detectMoments [s] = []) ∧
    detectMoments ([] : List Segment) = [] := by
  refine ⟨?_, ?_, ?_, fun s => rfl, rfl⟩
  · intro hle
    unfold classifyPair
    rw [if_neg (not_lt.mpr hle)]
    constructor
    · intro h
      split_ifs at h with h4 h5
      exact ⟨h4, h5⟩
    · rintro ⟨h4, h5⟩
      rw [if_pos h4, if_pos h5]
  · intro he
    unfold classifyPair
    rw [he]
    norm_num
  · intro hw hle
    unfold classifyPair
    rw [if_neg (not_lt.mpr hle)]
    split_ifs with h4 h5
    · exact absurd h5 (not_lt.mpr hw)
    · rfl
    · rfl

theorem interruption_classification_witness :
    (classifyPair ⟨0, 5, "X", "hi", false⟩ ⟨2399/500, 6, "Y", "no wait", false⟩ =
        some ⟨2399/500, 5, 7/10, "Interruption"⟩) ∧
    classifyPair ⟨0, 5, "X", "hi", false⟩ ⟨24/5, 6, "Y", "no wait", false⟩ = none ∧
    classifyPair ⟨0, 5, "X", "hi", false⟩ ⟨4, 6, "Y", "yeah", false⟩ = none :=
  ⟨((interruption_classification _ _).1 (by with_unfolding_all decide)).mpr
      ⟨by with_unfolding_all decide, by with_unfolding_all decide⟩,
   (interruption_classification _ _).2.1 (by with_unfolding_all decide),
   (interruption_classification _ _).2.2.1 (by with_unfolding_all decide)
     (by with_unfolding_all decide)⟩

/-- C5: the aggregator's per-pair fast-latch test increments the later
speaker's counter exactly when the speakers differ, the gap is strictly
below 0.15s (negative gaps included), and the later utterance lasts
strictly more than 1.0s; a gap of exactly 0.15s, a duration of exactly
1.0s, or a same-speaker pair never increments. -/
theorem fast_latch_interruption (prev curr : Segment) :
    (interruptionIncr prev curr = true ↔
      (curr.speaker ≠ prev.speaker ∧ curr.start - prev.stop < 3/20 ∧
        1 < curr.stop - curr.start)) ∧
    (curr.start - prev.stop = 3/20 → interruptionIncr prev curr = false) ∧
    (curr.stop - curr.start = 1 → interruptionIncr prev curr = false) ∧
    (curr.speaker = prev.speaker → interruptionIncr prev curr = false) := by
  have hmain : interruptionIncr prev curr = true ↔
      (curr.speaker ≠ prev.speaker ∧ curr.start - prev.stop < 3/20 ∧
        1 < curr.stop - curr.start) := by
    unfold interruptionIncr
    simp [Bool.and_eq_true, and_assoc]
  refine ⟨hmain, ?_, ?_, ?_⟩
  · intro he
    rw [← Bool.not_eq_true]
    intro htrue
    obtain ⟨-, hlt, -⟩ := hmain.mp htrue
    rw [he] at hlt
    exact lt_irrefl _ hlt
  · intro he
    rw [← Bool.not_eq_true]
    intro htrue
    obtain ⟨-, -, hlt⟩ := hmain.mp htrue
    rw [he] at hlt
    exact lt_irrefl _ hlt
  · intro he
    rw [← Bool.not_eq_true]
    intro htrue
    obtain ⟨hne, -, -⟩ := hmain.mp htrue
    exact hne he

theorem fast_latch_interruption_witness :
    interruptionIncr ⟨0, 5, "X", "a", false⟩
      ⟨51499/10000, 61500/10000, "Y", "b", false⟩ = true ∧
    interruptionIncr ⟨0, 5, "X", "a", false⟩
      ⟨515/100, 7, "Y", "b", false⟩ = false ∧
    interruptionIncr ⟨0, 5, "X", "a", false⟩
      ⟨51/10, 61/10, "Y", "b", false⟩ = false ∧
    interruptionIncr ⟨0, 5, "X", "a", false⟩
      ⟨51/10, 8, "X", "b", false⟩ = false :=
  ⟨(fast_latch_interruption _ _).1.mpr
      ⟨by with_unfolding_all decide, by with_unfolding_all decide,
       by with_unfolding_all decide⟩,
   (fast_latch_interruption _ _).2.1 (by with_unfolding_all decide),
   (fast_latch_interruption _ _).2.2.1 (by with_unfolding_all decide),
   (fast_latch_interruption _ _).2.2.2 rfl⟩

lemma globalScoreQ_spec_form (l : List Segment) :
    globalScoreQ l =
      if detectMoments l = [] then 0
      else if min 100 ((awkwardRatio l / (5/100)) * 50) < 20 then 20
      else min 100 ((awkwardRatio l / (5/100)) * 50) := by
  show (if detectMoments l ≠ [] ∧ min 100 ((awkwardRatio l / (5/100)) * 50) < 20
        then (20:ℚ) else min 100 ((awkwardRatio l / (5/100)) * 50)) = _
  by_cases hm : detectMoments l = []
  · have hr : awkwardRatio l = 0 := by
      unfold awkwardRatio totalAwkwardTime
      rw [hm]
      simp
    rw [if_pos hm, if_neg (by simp [hm]), hr]
    norm_num
  · rw [if_neg hm]
    by_cases hlt : min 100 ((awkwardRatio l / (5/100)) * 50) < 20
    · rw [if_pos hlt, if_pos ⟨hm, hlt⟩]
    · rw [if_neg hlt, if_neg (by tauto)]

/-- C3: the Stage A base score is `min(100, (awkward_ratio / 0.05) * 50)`,
raised to exactly 20 when moments exist and the value is below 20, and 0
when the moment list is empty. -/
theorem base_score_formula (l : List Segment) :
    globalScoreQ l = stageASpec l :=
  globalScoreQ_spec_form l

/-- C7: the empty utterance sequence is legal and yields the degenerate
report: final score 0, verdict in the lowest band ("Smooth Vibes"), no
flagged moments, empty per-speaker metrics, and the safe total-duration
fallback 1, so the analysis cannot fail. -/
theorem empty_input_report :
    finalScore ([] : List Segment) = 0 ∧
    verdictOf (finalScore ([] : List Segment)) = Verdict.smoothVibes ∧
    detectMoments ([] : List Segment) = [] ∧
    speakersList ([] : List Segment) = [] ∧
    interruptionPairs ([] : List Segment) = [] ∧
    silenceMoments ([] : List Segment) = [] ∧
    totalDuration ([] : List Segment) = 1 ∧
    (∀ spk : String, speakingTimeOf ([] : List Segment) spk = 0 ∧
      questionCountOf ([] : List Segment) spk = 0) := by
  refine ⟨?_, ?_, rfl, rfl, rfl, rfl, rfl, fun spk => ⟨rfl, rfl⟩⟩
  · with_unfolding_all decide
  · with_unfolding_all decide

/-- C8 counterexample: the claim says the divisor is never below 1.0, but
for the one-utterance sequence spanning `[0, 0.5]` the divisor is 0.5: the
fallback to 1 applies only to the empty sequence. -/
theorem divisor_below_one_counterexample :
    totalDuration [⟨0, 1/2, "A", "hi", false⟩] = 1/2 ∧ ((1:ℚ)/2) < 1 := by
  with_unfolding_all decide

/-- C8 amended: the divisor falls back to 1 only on the empty sequence;
for a non-empty sequence it is the raw span `last.end - first.start`,
which may be below 1.0, but is strictly positive under the data-model
invariant (sorted starts, `start < end`), so no division by zero occurs. -/
theorem divisor_fallback_amended :
    totalDuration ([] : List Segment) = 1 ∧
    (∀ (a : Segment) (t : List Segment),
      totalDuration (a :: t) = ((a :: t).getLast (by simp)).stop - a.start) ∧
    (∀ l : List Segment, WFb l = true → l ≠ [] → 0 < totalDuration l) :=
  ⟨rfl,
   fun a t =>
     totalDuration_eq (List.getLast?_eq_getLast_of_ne_nil (by simp)) rfl,
   fun _ hwf hne => totalDuration_pos hwf hne⟩

theorem divisor_fallback_amended_witness :
    0 < totalDuration [⟨0, 1/2, "A", "hi", false⟩] :=
  divisor_fallback_amended.2.2 _ (by with_unfolding_all decide)
    (List.cons_ne_nil _ _)

lemma pyTrunc_nonneg {q : ℚ} (h : 0 ≤ q) : 0 ≤ pyTrunc q := by
  unfold pyTrunc
  rw [if_pos h]
  exact Int.floor_nonneg.mpr h

lemma globalScoreQ_nonneg {l : List Segment} (hwf : WFb l = true) (hne : l ≠ []) :
    0 ≤ globalScoreQ l := by
  have hr : 0 ≤ awkwardRatio l :=
    div_nonneg (totalAwkwardTime_nonneg l) (le_of_lt (totalDuration_pos hwf hne))
  show (0:ℚ) ≤
    if detectMoments l ≠ [] ∧ min 100 ((awkwardRatio l / (5/100)) * 50) < 20
    then 20 else min 100 ((awkwardRatio l / (5/100)) * 50)
  split_ifs with h
  · norm_num
  · exact le_min (by norm_num)
      (mul_nonneg (div_nonneg hr (by norm_num)) (by norm_num))

lemma domPenalty_nonneg (l : List Segment) : 0 ≤ domPenalty l := by
  unfold domPenalty
  split_ifs with h
  · exact mul_nonneg (by linarith) (by norm_num)
  · exact le_refl 0

lemma silPenalty_nonneg (l : List Segment) : 0 ≤ silPenalty l := by
  unfold silPenalty
  split_ifs with h
  · exact mul_nonneg (by linarith) (by norm_num)
  · exact le_refl 0

lemma intPenalty_nonneg (l : List Segment) : 0 ≤ intPenalty l := by
  unfold intPenalty
  positivity

lemma finalScoreQ_nonneg {l : List Segment} (hwf : WFb l = true) (hne : l ≠ []) :
    0 ≤ finalScoreQ l := by
  unfold finalScoreQ
  have h1 : (0:ℚ) ≤ (reportScoreZ l : ℚ) := by
    have := pyTrunc_nonneg (globalScoreQ_nonneg hwf hne)
    exact_mod_cast this
  have h2 := domPenalty_nonneg l
  have h3 := silPenalty_nonneg l
  have h4 := intPenalty_nonneg l
  linarith

/-- C6: for every well-formed non-empty sequence the final post-penalty
score is an integer between 0 and 100, and the verdict label agrees with
the score-range table: below 20 "Smooth Vibes", 20–39 "Slightly
Frictioned", 40–69 "Awkward", 70 and above "Hostage Situation". -/
theorem score_bounds_and_verdict (l : List Segment)
    (hwf : WFb l = true) (hne : l ≠ []) :
    0 ≤ finalScore l ∧ finalScore l ≤ 100 ∧
    (finalScore l < 20 → verdictOf (finalScore l) = Verdict.smoothVibes) ∧
    (20 ≤ finalScore l ∧ finalScore l ≤ 39 →
      verdictOf (finalScore l) = Verdict.slightlyFrictioned) ∧
    (40 ≤ finalScore l ∧ finalScore l ≤ 69 →
      verdictOf (finalScore l) = Verdict.awkward) ∧
    (70 ≤ finalScore l → verdictOf (finalScore l) = Verdict.hostageSituation) := by
  refine ⟨?_, min_le_left _ _, ?_, ?_, ?_, ?_⟩
  · exact le_min (by norm_num) (pyTrunc_nonneg (finalScoreQ_nonneg hwf hne))
  · intro h
    unfold verdictOf
    rw [if_pos h]
  · rintro ⟨h1, h2⟩
    unfold verdictOf
    rw [if_neg (by omega), if_pos (by omega)]
  · rintro ⟨h1, h2⟩
    unfold verdictOf
    rw [if_neg (by omega), if_neg (by omega), if_pos (by omega)]
  · intro h
    unfold verdictOf
    rw [if_neg (by omega), if_neg (by omega), if_neg (by omega)]

theorem score_bounds_and_verdict_witness :
    0 ≤ finalScore [⟨0, 1, "A", "hi", false⟩] ∧
    finalScore [⟨0, 1, "A", "hi", false⟩] ≤ 100 ∧
    verdictOf (finalScore [⟨0, 1, "A", "hi", false⟩]) = Verdict.hostageSituation :=
  ⟨(score_bounds_and_verdict _ (by with_unfolding_all decide)
      (List.cons_ne_nil _ _)).1,
   (score_bounds_and_verdict _ (by with_unfolding_all decide)
      (List.cons_ne_nil _ _)).2.1,
   (score_bounds_and_verdict _ (by with_unfolding_all decide)
      (List.cons_ne_nil _ _)).2.2.2.2.2 (by with_unfolding_all decide)⟩

/-- C4 counterexample: on this two-utterance input the code truncates the
Stage A score to an integer (20) before adding the dominance penalty
(69.75) and truncates again, giving 89, while the claim's single-floor
composition over the un-truncated Stage A value (20.6) gives 90. -/
theorem single_floor_counterexample :
    finalScore [⟨0, 10, "A", "hi there", true⟩,
                ⟨603/50, 100, "B", "ok ok", false⟩] = 89 ∧
    specFinalScoreSingleFloor [⟨0, 10, "A", "hi there", true⟩,
                ⟨603/50, 100, "B", "ok ok", false⟩] = 90 := by
  constructor
  · with_unfolding_all decide
  · with_unfolding_all decide

/-- C4 amended: the final score is
`min(100, int(int(stage_a) + dominance_penalty + silence_penalty +
interruption_penalty))`: the Stage A value is truncated to an integer
*before* the penalties are added, and the sum is truncated again. -/
theorem two_stage_composition (l : List Segment) :
    finalScore l =
      min 100 (pyTrunc ((pyTrunc (stageASpec l) : ℚ) +
        domPenalty l + silPenalty l + intPenalty l)) := by
  unfold finalScore finalScoreQ reportScoreZ
  rw [globalScoreQ_spec_form l]
  rfl

/-- C10 counterexample: the engagement filter of `src/app.py` (line 388)
evaluates `'?' in s.text` for *every* utterance, and on a missing (None)
text this raises a `TypeError`, as does `None.split()`; so an utterance
with missing text makes the analysis raise, contrary to the claim. -/
theorem none_text_raises_counterexample :
    questionFilterE none = Except.error PyErr.typeError ∧
    pyWordCountE none = Except.error PyErr.typeError :=
  ⟨rfl, rfl⟩

/-- C10 amended: an utterance with *empty* text does not raise: it counts
as zero words, is never a question for the engagement filter, and never
passes the detector's multi-word interruption filter; only a None text
raises (see the counterexample), and None never arises from the
repository's own constructors, which coerce text to a string. -/
theorem empty_text_amended :
    questionFilterE (some "") = Except.ok false ∧
    pyWordCountE (some "") = Except.ok 0 ∧
    containsQm "" = false ∧
    wordCount "" = 0 ∧
    (∀ current next : Segment, next.text = "" →
      next.start - current.stop ≤ 3/2 → classifyPair current next = none) := by
  refine ⟨rfl, rfl, rfl, rfl, ?_⟩
  intro current next ht hle
  unfold classifyPair
  rw [if_neg (not_lt.mpr hle)]
  split_ifs with h4 h5
  · rw [ht] at h5
    exact absurd h5 (by decide)
  · rfl
  · rfl

theorem empty_text_amended_witness :
    classifyPair ⟨0, 1, "A", "hi", false⟩ ⟨0, 2, "B", "", false⟩ = none :=
  empty_text_amended.2.2.2.2 _ _ rfl (by with_unfolding_all decide)

lemma detectMoments_cons₂ (a b : Segment) (t : List Segment) :
    detectMoments (a :: b :: t) =
      (classifyPair a b).toList ++ detectMoments (b :: t) := rfl

lemma totalAwkwardTime_detect_cons (a b : Segment) (t : List Segment) :
    totalAwkwardTime (detectMoments (a :: b :: t)) =
      awkContrib a b + totalAwkwardTime (detectMoments (b :: t)) := by
  rw [detectMoments_cons₂]
  unfold totalAwkwardTime awkContrib
  rw [List.map_append, List.sum_append]
  congr 1
  cases h : classifyPair a b <;> simp

lemma awkTime_append : ∀ (l₁ : List Segment) (c : Segment) (rest : List Segment),
    totalAwkwardTime (detectMoments (l₁ ++ c :: rest)) =
      totalAwkwardTime (detectMoments (l₁ ++ [c])) +
        totalAwkwardTime (detectMoments (c :: rest))
  | [], c, rest => by
    simp [detectMoments, totalAwkwardTime]
  | [a], c, rest => by
    show totalAwkwardTime (detectMoments (a :: c :: rest)) = _
    rw [totalAwkwardTime_detect_cons a c rest,
      show ([a] ++ [c]) = a :: c :: [] from rfl,
      totalAwkwardTime_detect_cons a c []]
    simp [detectMoments, totalAwkwardTime]
  | a :: b :: l₁, c, rest => by
    have ih := awkTime_append (b :: l₁) c rest
    simp only [List.cons_append] at ih ⊢
    rw [totalAwkwardTime_detect_cons a b (l₁ ++ c :: rest),
      totalAwkwardTime_detect_cons a b (l₁ ++ [c]), ih]
    ring

lemma awkContrib_shift (δ : ℚ) (a b : Segment) :
    awkContrib (shiftSeg δ a) (shiftSeg δ b) = awkContrib a b := by
  unfold awkContrib classifyPair
  have hg : (shiftSeg δ b).start - (shiftSeg δ a).stop = b.start - a.stop := by
    show b.start + δ - (a.stop + δ) = b.start - a.stop
    ring
  have hq : (shiftSeg δ a).is_question = a.is_question := rfl
  have ht : (shiftSeg δ b).text = b.text := rfl
  rw [hg, hq, ht]
  split_ifs <;> simp [shiftSeg] <;> ring

lemma awkTime_tail_shift (δ : ℚ) : ∀ l : List Segment,
    totalAwkwardTime (detectMoments (l.map (shiftSeg δ))) =
      totalAwkwardTime (detectMoments l)
  | [] => rfl
  | [a] => rfl
  | a :: b :: t => by
    show totalAwkwardTime
        (detectMoments (shiftSeg δ a :: shiftSeg δ b :: t.map (shiftSeg δ))) = _
    rw [totalAwkwardTime_detect_cons, totalAwkwardTime_detect_cons,
      awkContrib_shift,
      show (shiftSeg δ b :: t.map (shiftSeg δ)) = (b :: t).map (shiftSeg δ) from rfl,
      awkTime_tail_shift δ (b :: t)]

lemma awkContrib_silence {a b : Segment} (h : 3/2 < b.start - a.stop) :
    awkContrib a b = (b.start - a.stop) * sevOf a.is_question (b.start - a.stop) := by
  unfold awkContrib classifyPair sevOf
  rw [if_pos h]
  split_ifs <;> simp <;> ring

lemma classifyPair_isSome_of_gap {c d : Segment} (h : 3/2 < d.start - c.stop) :
    classifyPair c d ≠ none := by
  unfold classifyPair
  rw [if_pos h]
  split_ifs <;> simp

lemma detect_ne_nil : ∀ (l₁ : List Segment) (c d : Segment) (l₂ : List Segment),
    3/2 < d.start - c.stop → detectMoments (l₁ ++ c :: d :: l₂) ≠ []
  | [], c, d, l₂, h => by
    show (classifyPair c d).toList ++ detectMoments (d :: l₂) ≠ []
    intro he
    obtain ⟨h1, h2⟩ := List.append_eq_nil.mp he
    exact classifyPair_isSome_of_gap h (by
      cases hc : classifyPair c d
      · rfl
      · rw [hc] at h1; exact absurd h1 (by simp))
  | [a], c, d, l₂, h => by
    show (classifyPair a c).toList ++ detectMoments (c :: d :: l₂) ≠ []
    intro he
    obtain ⟨h1, h2⟩ := List.append_eq_nil.mp he
    exact detect_ne_nil [] c d l₂ h h2
  | a :: b :: l₁, c, d, l₂, h => by
    show (classifyPair a b).toList ++ detectMoments (b :: (l₁ ++ c :: d :: l₂)) ≠ []
    intro he
    obtain ⟨h1, h2⟩ := List.append_eq_nil.mp he
    exact detect_ne_nil (b :: l₁) c d l₂ h (by
      simpa only [List.cons_append] using h2)

lemma totalDuration_shift (l₁ : List Segment) (c d : Segment) (l₂ : List Segment)
    (δ : ℚ) :
    totalDuration (l₁ ++ c :: shiftSeg δ d :: l₂.map (shiftSeg δ)) =
      totalDuration (l₁ ++ c :: d :: l₂) + δ := by
  obtain ⟨z, hz⟩ : ∃ z, (d :: l₂).getLast? = some z :=
    ⟨_, List.getLast?_eq_getLast_of_ne_nil (by simp)⟩
  have hzs : (shiftSeg δ d :: l₂.map (shiftSeg δ)).getLast? = some (shiftSeg δ z) := by
    rw [show (shiftSeg δ d :: l₂.map (shiftSeg δ)) = (d :: l₂).map (shiftSeg δ) from rfl,
      List.getLast?_map, hz]
    rfl
  have hL : (l₁ ++ c :: d :: l₂).getLast? = some z := by
    rw [List.getLast?_append_cons, List.getLast?_cons_cons, hz]
  have hLs : (l₁ ++ c :: shiftSeg δ d :: l₂.map (shiftSeg δ)).getLast? =
      some (shiftSeg δ z) := by
    rw [List.getLast?_append_cons, List.getLast?_cons_cons, hzs]
  cases l₁ with
  | nil =>
    rw [totalDuration_eq hLs rfl, totalDuration_eq hL rfl]
    show z.stop + δ - c.start = z.stop - c.start + δ
    ring
  | cons a t =>
    rw [totalDuration_eq hLs rfl, totalDuration_eq hL rfl]
    show z.stop + δ - a.start = z.stop - a.start + δ
    ring

lemma span_minus_gap_pos {l₁ : List Segment} {c d : Segment} {l₂ : List Segment}
    (hwf : WFb (l₁ ++ c :: d :: l₂) = true) :
    d.start - c.stop < totalDuration (l₁ ++ c :: d :: l₂) := by
  have hpw := WFb_sorted hwf
  have hlt := WFb_startLtStop hwf
  obtain ⟨z, hz⟩ : ∃ z, (d :: l₂).getLast? = some z :=
    ⟨_, List.getLast?_eq_getLast_of_ne_nil (by simp)⟩
  have hL : (l₁ ++ c :: d :: l₂).getLast? = some z := by
    rw [List.getLast?_append_cons, List.getLast?_cons_cons, hz]
  have hzmem : z ∈ d :: l₂ := by
    obtain ⟨hne2, he⟩ := List.mem_getLast?_eq_getLast (Option.mem_def.mpr hz)
    rw [he]
    exact List.getLast_mem hne2
  have hdz : d.start ≤ z.start := by
    rcases List.mem_cons.mp hzmem with rfl | hm
    · exact le_refl _
    · have hpw2 : List.Pairwise (fun a b : Segment => a.start ≤ b.start) (d :: l₂) := by
        have := (List.pairwise_append.mp hpw).2.1
        exact (List.pairwise_cons.mp this).2
      exact List.rel_of_pairwise_cons hpw2 hm
  have hzlt : z.start < z.stop :=
    hlt z (by
      apply List.mem_append_right
      exact List.mem_cons_of_mem c hzmem)
  have hclt : c.start < c.stop :=
    hlt c (by
      apply List.mem_append_right
      exact List.mem_cons_self _ _)
  cases l₁ with
  | nil =>
    rw [totalDuration_eq hL rfl]
    show d.start - c.stop < z.stop - c.start
    linarith
  | cons a t =>
    rw [totalDuration_eq hL rfl]
    have hac : a.start ≤ c.start := by
      have hsplit := List.pairwise_append.mp hpw
      exact hsplit.2.2 a (List.mem_cons_self _ _) c (List.mem_cons_self _ _)
    show d.start - c.stop < z.stop - a.start
    linarith

lemma sevOf_mono (q : Bool) {g g' : ℚ} (h : g ≤ g') : sevOf q g ≤ sevOf q g' := by
  unfold sevOf
  split_ifs <;> try norm_num
  all_goals linarith

lemma sevOf_lb (q : Bool) (g : ℚ) : 6/10 ≤ sevOf q g := by
  unfold sevOf
  split_ifs <;> norm_num

lemma score_min_mono (q : Bool) {C K g g' : ℚ} (hC : 0 ≤ C) (hK : 0 < K)
    (hg : 3/2 < g) (hgg : g ≤ g') :
    min 100 (((C + g * sevOf q g) / (K + g) / (5/100)) * 50) ≤
      min 100 (((C + g' * sevOf q g') / (K + g') / (5/100)) * 50) := by
  have hscale : ∀ x : ℚ, (x / (5/100)) * 50 = x * 1000 := by
    intro x
    ring
  rw [hscale, hscale]
  have hgpos : (0:ℚ) < g := lt_trans (by norm_num) hg
  have hgpos' : (0:ℚ) < g' := lt_of_lt_of_le hgpos hgg
  have hKg : (0:ℚ) < K + g := by linarith
  have hKg' : (0:ℚ) < K + g' := by linarith
  have hs_le : sevOf q g ≤ sevOf q g' := sevOf_mono q hgg
  have hs_lb : 6/10 ≤ sevOf q g := sevOf_lb q g
  have hs_lb' : 6/10 ≤ sevOf q g' := sevOf_lb q g'
  set s := sevOf q g with hs_def
  set t := sevOf q g' with ht_def
  rcases le_or_lt C (t * K) with hc | hc
  · apply min_le_min (le_refl 100)
    apply mul_le_mul_of_nonneg_right ?_ (by norm_num : (0:ℚ) ≤ 1000)
    rw [div_le_div_iff hKg hKg']
    rcases le_or_lt C (s * K) with hc2 | hc2
    · nlinarith [mul_nonneg (sub_nonneg.mpr hgg) (sub_nonneg.mpr hc2),
        mul_nonneg (mul_nonneg hgpos'.le (sub_nonneg.mpr hs_le)) hKg.le]
    · nlinarith [mul_nonneg hgpos.le (sub_nonneg.mpr hc2.le),
        mul_nonneg hgpos'.le (sub_nonneg.mpr hc),
        mul_nonneg (mul_nonneg hgpos'.le (sub_nonneg.mpr hs_le)) hgpos.le]
  · have h100 : (100:ℚ) ≤ (C + g' * t) / (K + g') * 1000 := by
      rw [div_mul_eq_mul_div, le_div_iff hKg']
      nlinarith [mul_le_mul_of_nonneg_right hs_lb' hgpos'.le]
    calc min 100 ((C + g * s) / (K + g) * 1000) ≤ 100 := min_le_left _ _
    _ ≤ min 100 ((C + g' * t) / (K + g') * 1000) := le_min (le_refl _) h100

lemma globalScoreQ_of_ne_nil {l : List Segment} (h : detectMoments l ≠ []) :
    globalScoreQ l = max 20 (min 100 ((awkwardRatio l / (5/100)) * 50)) := by
  rw [globalScoreQ_spec_form, if_neg h]
  rcases lt_or_le (min 100 ((awkwardRatio l / (5/100)) * 50)) 20 with h1 | h1
  · rw [if_pos h1, max_eq_left h1.le]
  · rw [if_neg (not_lt.mpr h1), max_eq_right h1]

lemma score_min_mono_shift (q : Bool) {C D g δ : ℚ} (hC : 0 ≤ C) (hDg : g < D)
    (hg : 3/2 < g) (hδ : 0 ≤ δ) :
    min 100 (((C + g * sevOf q g) / D / (5/100)) * 50) ≤
      min 100 (((C + (g + δ) * sevOf q (g + δ)) / (D + δ) / (5/100)) * 50) := by
  have h := score_min_mono q hC (show (0:ℚ) < D - g by linarith) hg
    (show g ≤ g + δ by linarith)
  have e1 : D - g + g = D := by ring
  have e2 : D - g + (g + δ) = D + δ := by ring
  rw [e1, e2] at h
  exact h

/-- C9: widening a single silence gap that already exceeds 1.5s, holding
everything else fixed (the whole tail of the conversation shifts later by
`δ ≥ 0`), never decreases the Stage A base score. -/
theorem base_score_gap_monotone (l₁ : List Segment) (c d : Segment)
    (l₂ : List Segment) (δ : ℚ) (hwf : WFb (l₁ ++ c :: d :: l₂) = true)
    (hg : 3/2 < d.start - c.stop) (hδ : 0 ≤ δ) :
    globalScoreQ (l₁ ++ c :: d :: l₂) ≤
      globalScoreQ (l₁ ++ c :: shiftSeg δ d :: l₂.map (shiftSeg δ)) := by
  have hg' : 3/2 < (shiftSeg δ d).start - c.stop := by
    show 3/2 < d.start + δ - c.stop
    linarith
  have hne : detectMoments (l₁ ++ c :: d :: l₂) ≠ [] := detect_ne_nil l₁ c d l₂ hg
  have hne' : detectMoments (l₁ ++ c :: shiftSeg δ d :: l₂.map (shiftSeg δ)) ≠ [] :=
    detect_ne_nil l₁ c (shiftSeg δ d) (l₂.map (shiftSeg δ)) hg'
  rw [globalScoreQ_of_ne_nil hne, globalScoreQ_of_ne_nil hne']
  apply max_le_max (le_refl 20)
  have hW : totalAwkwardTime (detectMoments (l₁ ++ c :: d :: l₂)) =
      (totalAwkwardTime (detectMoments (l₁ ++ [c])) +
        totalAwkwardTime (detectMoments (d :: l₂))) +
        (d.start - c.stop) * sevOf c.is_question (d.start - c.stop) := by
    rw [awkTime_append l₁ c (d :: l₂), totalAwkwardTime_detect_cons c d l₂,
      awkContrib_silence hg]
    ring
  have hW' : totalAwkwardTime
        (detectMoments (l₁ ++ c :: shiftSeg δ d :: l₂.map (shiftSeg δ))) =
      (totalAwkwardTime (detectMoments (l₁ ++ [c])) +
        totalAwkwardTime (detectMoments (d :: l₂))) +
        (d.start - c.stop + δ) * sevOf c.is_question (d.start - c.stop + δ) := by
    rw [awkTime_append l₁ c (shiftSeg δ d :: l₂.map (shiftSeg δ)),
      totalAwkwardTime_detect_cons c (shiftSeg δ d) (l₂.map (shiftSeg δ)),
      awkContrib_silence hg',
      show (shiftSeg δ d :: l₂.map (shiftSeg δ)) = (d :: l₂).map (shiftSeg δ) from rfl,
      awkTime_tail_shift,
      show (shiftSeg δ d).start - c.stop = d.start - c.stop + δ from by
        show d.start + δ - c.stop = d.start - c.stop + δ
        ring]
    ring
  have hKpos : d.start - c.stop < totalDuration (l₁ ++ c :: d :: l₂) :=
    span_minus_gap_pos hwf
  have hD : totalDuration (l₁ ++ c :: shiftSeg δ d :: l₂.map (shiftSeg δ)) =
      totalDuration (l₁ ++ c :: d :: l₂) + δ := totalDuration_shift l₁ c d l₂ δ
  have hC : 0 ≤ totalAwkwardTime (detectMoments (l₁ ++ [c])) +
      totalAwkwardTime (detectMoments (d :: l₂)) :=
    add_nonneg (totalAwkwardTime_nonneg _) (totalAwkwardTime_nonneg _)
  unfold awkwardRatio
  rw [hW, hW', hD]
  exact score_min_mono_shift c.is_question hC hKpos hg hδ

theorem base_score_gap_monotone_witness :
    globalScoreQ [⟨0, 1, "A", "hi", false⟩, ⟨3, 4, "B", "yo yo", false⟩] ≤
      globalScoreQ [⟨0, 1, "A", "hi", false⟩,
        shiftSeg 1 ⟨3, 4, "B", "yo yo", false⟩] :=
  base_score_gap_monotone [] ⟨0, 1, "A", "hi", false⟩ ⟨3, 4, "B", "yo yo", false⟩
    [] 1 (by with_unfolding_all decide) (by with_unfolding_all decide)
    (by norm_num)
